import Mathlib

/-!
# Verification of `scripts/icegroup_particles.py`

A shallow embedding of the ice-group labelling script.  The script reads a
STAR metadata file, groups particle rows by micrograph, runs an external
segmentation routine (`icebreaker_icegroups_multi.ice_grouper`, an opaque
black box) per micrograph, reads the segment value at each particle's floored
pixel coordinate, and writes the scaled integer label back into the table.

Modelling choices:
* micrograph names are an arbitrary linearly ordered type `M` (the script
  uses Python strings, whose `sort()` relies only on the order);
* floating-point coordinates and segment values are modelled as rationals;
  a non-finite segment cell (NaN / ±inf, rejected by `np.isfinite`) is
  modelled as `none`;
* the external library (`load_img`, `ice_grouper`) is a parameter `ExtLib`;
* Python `int()` truncates toward zero, modelled by `pyInt`;
* NumPy integer indexing wraps one array length for negative indices and
  raises `IndexError` otherwise, modelled by `npIndex`;
* `exit()` with no argument raises `SystemExit(None)`, which terminates the
  interpreter with exit status `0`; an uncaught exception terminates with
  status `1`.  `runMain` records the exit status, the printed diagnostics
  and the written output document (or `none` when nothing is written).
-/

deriving instance DecidableEq for Except

namespace Icebreaker

/-- A cell of a segment image: `some v` is a finite value, `none` models a
non-finite value (`np.isfinite` is false on it). -/
abbrev SegCell := Option ℚ

/-- A segment image as returned by `ice_grouper`: a 2-D array, row major. -/
abbrev SegImage := List (List SegCell)

/-- One row of the `particles` table of the STAR file.  `otherFields` stands
for all remaining columns, which the script never touches. -/
structure Particle (M : Type) where
  rlnMicrographName : M
  rlnCoordinateX : ℚ
  rlnCoordinateY : ℚ
  ibIceGroup : ℤ
  otherFields : List (String × String)
deriving DecidableEq

/-- The `particles` table: its rows plus whether the
`rlnMicrographName` column is present (`"rlnMicrographName" in particles.columns`). -/
structure ParticleTable (M : Type) where
  hasMicrographName : Bool
  rows : List (Particle M)
deriving DecidableEq

/-- The whole STAR document `df`: the `particles` block plus any other blocks,
which the script passes through unchanged. -/
structure StarDoc (M : Type) where
  particles : ParticleTable M
  otherBlocks : List (String × String)
deriving DecidableEq

/-- The command-line arguments of the script (argparse). -/
structure Args where
  cpus : ℤ
  x_patches : ℤ
  y_patches : ℤ
  num_of_segments : ℤ
  output_star : String
deriving DecidableEq

/-- The external `icebreaker_icegroups_multi` library: `load_img` loads the
micrograph image, `ice_grouper` segments it, returning `none` on load
failure (`seg_img is None`). -/
structure ExtLib (M Img : Type) where
  load_img : M → Img
  ice_grouper : Img → ℤ → ℤ → ℤ → Option SegImage

/-- Python `int()` applied to a (finite) numeric value: truncation toward
zero. -/
def pyInt (q : ℚ) : ℤ := if 0 ≤ q then ⌊q⌋ else ⌈q⌉

/-- NumPy 1-D integer indexing `xs[i]`: a negative index is shifted by one
array length; anything still out of range raises `IndexError`. -/
def npIndex {β : Type} (xs : List β) (i : ℤ) : Except String β :=
  let j : ℤ := if i < 0 then i + xs.length else i
  if 0 ≤ j then
    match xs[j.toNat]? with
    | some a => Except.ok a
    | none => Except.error "IndexError"
  else Except.error "IndexError"

/-- The read `seg_img[y1][x1]` of the script: NumPy indexing on each axis. -/
def segGet (seg : SegImage) (y x : ℤ) : Except String SegCell := do
  let row ← npIndex seg y
  npIndex row x

/-- Pandas positional row lookup `particles["…"][part_ind]` (the table has a
default `RangeIndex`, so labels coincide with positions); a missing label
raises `KeyError`. -/
def lookupRow {M : Type} (particles : List (Particle M)) (i : ℕ) :
    Except String (Particle M) :=
  match particles[i]? with
  | some p => Except.ok p
  | none => Except.error "KeyError"

/-- The particle loop of `process_particle_icethickness`: for each index of
the micrograph's index list, floor the stored coordinates, and if the segment
image exists and the cell read at `[y1][x1]` is finite, record
`int(seg_img[y1][x1] * 10000)` under that index.  Any raised exception
aborts the whole task. -/
def processLoop {M : Type} (particles : List (Particle M))
    (seg_img : Option SegImage) : List ℕ → Except String (List (ℕ × ℤ))
  | [] => Except.ok []
  | part_ind :: rest =>
    match lookupRow particles part_ind with
    | Except.error e => Except.error e
    | Except.ok p =>
      let x1 : ℤ := ⌊p.rlnCoordinateX⌋
      let y1 : ℤ := ⌊p.rlnCoordinateY⌋
      match seg_img with
      | none => processLoop particles seg_img rest
      | some seg =>
        match segGet seg y1 x1 with
        | Except.error e => Except.error e
        | Except.ok none => processLoop particles seg_img rest
        | Except.ok (some v) =>
          match processLoop particles seg_img rest with
          | Except.error e => Except.error e
          | Except.ok tail => Except.ok ((part_ind, pyInt (v * 10000)) :: tail)

/-- `process_particle_icethickness(args, mic)`: load the micrograph's image,
segment it, then run the particle loop over `mic_coord[mic]`.  The table and
the index map are globals in the script; they are explicit parameters here. -/
def process_particle_icethickness {M Img : Type} (ext : ExtLib M Img)
    (args : Args) (particles : List (Particle M)) (mic_coord : M → List ℕ)
    (mic : M) : Except String (List (ℕ × ℤ)) :=
  let img := ext.load_img mic
  let seg_img := ext.ice_grouper img args.x_patches args.y_patches args.num_of_segments
  processLoop particles seg_img (mic_coord mic)

/-- The segment image computed for a micrograph (the two `load_img` /
`ice_grouper` lines of the task). -/
def segImageOf {M Img : Type} (ext : ExtLib M Img) (args : Args) (mic : M) :
    Option SegImage :=
  ext.ice_grouper (ext.load_img mic) args.x_patches args.y_patches args.num_of_segments

/-- `get_unique_micrographs`: `list(set(micrographs_used))` followed by
`.sort()` yields the distinct names in ascending order (sorting makes the
arbitrary set order irrelevant); `mic_coord[mic]` is
`[i for i, e in enumerate(micrographs_used) if e == mic]`. -/
def get_unique_micrographs {M : Type} [LinearOrder M]
    (micrographs_used : List M) : List M × (M → List ℕ) :=
  let micrographs_unique := List.insertionSort (· ≤ ·) micrographs_used.dedup
  let mic_coord : M → List ℕ := fun mic =>
    (List.range micrographs_used.length).filter
      (fun i => micrographs_used[i]? = some mic)
  (micrographs_unique, mic_coord)

/-- `particles.at[part_ind, 'ibIceGroup'] = ice_group`: overwrite one row's
label in place (`at` with the default `RangeIndex` addresses the row by
position; every index produced by the pipeline is in range). -/
def setIce {M : Type} (particles : List (Particle M)) (part_ind : ℕ)
    (g : ℤ) : List (Particle M) :=
  match particles[part_ind]? with
  | some p => particles.set part_ind { p with ibIceGroup := g }
  | none => particles

/-- `apply_ice_group_to_particles(result, particles)`: write each
`part_ind ↦ ice_group` entry of one task's result dict into the table, in
dict insertion order. -/
def apply_ice_group_to_particles {M : Type} (result : List (ℕ × ℤ))
    (particles : List (Particle M)) : List (Particle M) :=
  result.foldl (fun ps pr => setIce ps pr.1 pr.2) particles

/-- The effect of Python `exit()`: the printed diagnostic plus the exit
status (a bare `exit()` raises `SystemExit(None)`, status `0`). -/
structure ExitCall where
  message : String
  code : ℤ
deriving DecidableEq

/-- `load_star_file`: read the document, set the whole `ibIceGroup` column
to `-1`, and extract the micrograph-name column, exiting with a printed
message when it is absent. -/
def load_star_file {M : Type} (doc : StarDoc M) :
    Except ExitCall (StarDoc M × List (Particle M) × List M) :=
  let particles := doc.particles.rows.map (fun p => { p with ibIceGroup := -1 })
  if doc.particles.hasMicrographName then
    Except.ok
      ({ doc with particles := { doc.particles with rows := particles } },
        particles, particles.map Particle.rlnMicrographName)
  else
    Except.error { message := "No micrograph name present, exiting", code := 0 }

/-- Observable outcome of one run of the script: exit status, printed
diagnostics, and the document written to `args.output_star` (or `none` when
the run terminated without writing). -/
structure RunOutcome (M : Type) where
  exitCode : ℤ
  printed : List String
  output : Option (StarDoc M)
deriving DecidableEq

/-- The `__main__` block: load the STAR file, group by micrograph, run one
task per unique micrograph (`Pool.starmap` returns the results in task
order whatever the worker scheduling; an uncaught worker exception aborts
the run with status 1 and no output), fold every result into the table, and
write the document.  The `df["particles"] = particles` assignment is the
substitution of the updated rows into the document. -/
def runMain {M Img : Type} [LinearOrder M] (ext : ExtLib M Img) (args : Args)
    (doc : StarDoc M) : RunOutcome M :=
  match load_star_file doc with
  | Except.error e => { exitCode := e.code, printed := [e.message], output := none }
  | Except.ok (df, particles, micrographs_used) =>
    let gu := get_unique_micrographs micrographs_used
    match gu.1.mapM (process_particle_icethickness ext args particles gu.2) with
    | Except.error e => { exitCode := 1, printed := [e], output := none }
    | Except.ok results =>
      let particles2 :=
        results.foldl (fun ps r => apply_ice_group_to_particles r ps) particles
      { exitCode := 0, printed := [],
        output := some { df with particles := { df.particles with rows := particles2 } } }

/-- The rows of the particle table right after loading (whole `ibIceGroup`
column set to `-1`). -/
def loadedRows {M : Type} (doc : StarDoc M) : List (Particle M) :=
  doc.particles.rows.map (fun p => { p with ibIceGroup := -1 })

/-- The list of per-micrograph task results the pool collects (one entry per
unique micrograph, in task order), or the first worker exception. -/
def workerResults {M Img : Type} [LinearOrder M] (ext : ExtLib M Img)
    (args : Args) (doc : StarDoc M) :
    Except String (List (List (ℕ × ℤ))) :=
  let used := (loadedRows doc).map Particle.rlnMicrographName
  let gu := get_unique_micrographs used
  gu.1.mapM (process_particle_icethickness ext args (loadedRows doc) gu.2)

/-- The keys of a task's result dict, in insertion order. -/
def keysOf (r : List (ℕ × ℤ)) : List ℕ := r.map Prod.fst

/-- The value a result dict, represented as its insertion-ordered entry
list, finally associates to key `i` (last write wins), if any. -/
def lastVal : List (ℕ × ℤ) → ℕ → Option ℤ
  | [], _ => none
  | pr :: rest, i =>
    match lastVal rest i with
    | some g => some g
    | none => if pr.1 = i then some pr.2 else none

/-- Equality of two particle rows on every field except the ice-group
label. -/
def eqExceptIce {M : Type} (p q : Particle M) : Prop :=
  p.rlnMicrographName = q.rlnMicrographName ∧
  p.rlnCoordinateX = q.rlnCoordinateX ∧
  p.rlnCoordinateY = q.rlnCoordinateY ∧
  p.otherFields = q.otherFields

/-! ## Basic lemmas about the grouper -/

theorem mem_mic_coord {M : Type} [LinearOrder M] (l : List M) (m : M) (i : ℕ) :
    i ∈ (get_unique_micrographs l).2 m ↔ l[i]? = some m := by
  simp only [get_unique_micrographs, List.mem_filter, List.mem_range,
    decide_eq_true_eq]
  constructor
  · rintro ⟨-, h⟩
    exact h
  · intro h
    refine ⟨?_, h⟩
    rcases List.getElem?_eq_some.mp h with ⟨hlt, -⟩
    exact hlt

theorem mic_coord_pairwise {M : Type} [LinearOrder M] (l : List M) (m : M) :
    ((get_unique_micrographs l).2 m).Pairwise (· < ·) := by
  exact (List.pairwise_lt_range l.length).filter _

theorem mic_coord_nodup {M : Type} [LinearOrder M] (l : List M) (m : M) :
    ((get_unique_micrographs l).2 m).Nodup :=
  (mic_coord_pairwise l m).imp Nat.ne_of_lt

theorem mem_unique_micrographs {M : Type} [LinearOrder M] (l : List M) (m : M) :
    m ∈ (get_unique_micrographs l).1 ↔ m ∈ l := by
  rw [get_unique_micrographs]
  rw [(List.perm_insertionSort (· ≤ ·) l.dedup).mem_iff]
  exact List.mem_dedup

theorem unique_micrographs_sorted {M : Type} [LinearOrder M] (l : List M) :
    List.Sorted (· ≤ ·) (get_unique_micrographs l).1 :=
  List.sorted_insertionSort _ _

theorem unique_micrographs_nodup {M : Type} [LinearOrder M] (l : List M) :
    (get_unique_micrographs l).1.Nodup :=
  (List.perm_insertionSort (· ≤ ·) l.dedup).nodup_iff.mpr (List.nodup_dedup l)

/-! ## Basic lemmas about `setIce`, `apply_ice_group_to_particles`, `lastVal` -/

theorem length_setIce {M : Type} (ps : List (Particle M)) (i : ℕ) (g : ℤ) :
    (setIce ps i g).length = ps.length := by
  rw [setIce]
  cases ps[i]? with
  | none => rfl
  | some p => exact List.length_set ps i _

theorem getq_setIce_self {M : Type} (ps : List (Particle M)) (i : ℕ) (g : ℤ) :
    (setIce ps i g)[i]? = (ps[i]?).map (fun p => { p with ibIceGroup := g }) := by
  rw [setIce]
  cases hp : ps[i]? with
  | none => simp [hp]
  | some p =>
    rcases List.getElem?_eq_some.mp hp with ⟨hlt, -⟩
    rw [List.getElem?_set_self hlt]
    rfl

theorem getq_setIce_ne {M : Type} (ps : List (Particle M)) (i j : ℕ) (g : ℤ)
    (h : i ≠ j) : (setIce ps i g)[j]? = ps[j]? := by
  rw [setIce]
  cases ps[i]? with
  | none => rfl
  | some p => exact List.getElem?_set_ne h

theorem lastVal_of_not_key (r : List (ℕ × ℤ)) (i : ℕ)
    (h : i ∉ keysOf r) : lastVal r i = none := by
  induction r with
  | nil => rfl
  | cons pr rest ih =>
    rw [keysOf, List.map_cons, List.mem_cons, not_or] at h
    rw [lastVal, ih h.2, if_neg (fun hc => h.1 hc.symm)]

theorem key_of_lastVal : ∀ {r : List (ℕ × ℤ)} {i : ℕ} {g : ℤ},
    lastVal r i = some g → (i, g) ∈ r := by
  intro r
  induction r with
  | nil => intro i g h; cases h
  | cons pr rest ih =>
    obtain ⟨a, b⟩ := pr
    intro i g h
    rw [lastVal] at h
    cases hrest : lastVal rest i with
    | some g' =>
      rw [hrest] at h
      cases h
      exact List.mem_cons_of_mem _ (ih hrest)
    | none =>
      rw [hrest] at h
      by_cases hpr : a = i
      · rw [if_pos hpr] at h
        cases h
        cases hpr
        exact List.mem_cons_self _ _
      · rw [if_neg hpr] at h
        cases h

theorem mem_keysOf {r : List (ℕ × ℤ)} {i : ℕ} :
    i ∈ keysOf r ↔ ∃ g, (i, g) ∈ r := by
  rw [keysOf, List.mem_map]
  constructor
  · rintro ⟨⟨a, b⟩, hm, rfl⟩
    exact ⟨b, hm⟩
  · rintro ⟨g, hm⟩
    exact ⟨(i, g), hm, rfl⟩

theorem lastVal_of_mem {r : List (ℕ × ℤ)} {i : ℕ} {g : ℤ}
    (hnd : (keysOf r).Nodup) (hm : (i, g) ∈ r) : lastVal r i = some g := by
  induction r with
  | nil => cases hm
  | cons pr rest ih =>
    rw [keysOf, List.map_cons, List.nodup_cons] at hnd
    rcases List.mem_cons.mp hm with hm | hm
    · have hkey : i ∉ keysOf rest := by
        rw [← hm] at hnd
        exact hnd.1
      rw [lastVal, lastVal_of_not_key rest i hkey, ← hm]
      simp
    · have := ih hnd.2 hm
      rw [lastVal, this]

theorem getq_apply {M : Type} (r : List (ℕ × ℤ)) (ps : List (Particle M)) (j : ℕ) :
    (apply_ice_group_to_particles r ps)[j]? =
      match lastVal r j with
      | some g => (ps[j]?).map (fun p => { p with ibIceGroup := g })
      | none => ps[j]? := by
  induction r generalizing ps with
  | nil => rfl
  | cons pr rest ih =>
    rw [show apply_ice_group_to_particles (pr :: rest) ps =
      apply_ice_group_to_particles rest (setIce ps pr.1 pr.2) from rfl]
    rw [ih]
    cases hl : lastVal rest j with
    | some g =>
      have hcons : lastVal (pr :: rest) j = some g := by rw [lastVal, hl]
      rw [hcons]
      dsimp only
      by_cases hj : pr.1 = j
      · rw [hj, getq_setIce_self, Option.map_map]
        exact congrArg (fun f => Option.map f ps[j]?) (funext fun p => rfl)
      · rw [getq_setIce_ne _ _ _ _ hj]
    | none =>
      by_cases hj : pr.1 = j
      · have hcons : lastVal (pr :: rest) j = some pr.2 := by
          rw [lastVal, hl, if_pos hj]
        rw [hcons]
        dsimp only
        rw [hj, getq_setIce_self]
      · have hcons : lastVal (pr :: rest) j = none := by
          rw [lastVal, hl, if_neg hj]
        rw [hcons]
        dsimp only
        rw [getq_setIce_ne _ _ _ _ hj]

theorem length_apply {M : Type} (r : List (ℕ × ℤ)) (ps : List (Particle M)) :
    (apply_ice_group_to_particles r ps).length = ps.length := by
  induction r generalizing ps with
  | nil => rfl
  | cons pr rest ih =>
    rw [show apply_ice_group_to_particles (pr :: rest) ps =
      apply_ice_group_to_particles rest (setIce ps pr.1 pr.2) from rfl]
    rw [ih, length_setIce]

/-! ## Lemmas about the per-micrograph task -/

theorem lookupRow_ok {M : Type} {particles : List (Particle M)} {i : ℕ}
    {p : Particle M} :
    lookupRow particles i = Except.ok p ↔ particles[i]? = some p := by
  rw [lookupRow]
  cases particles[i]? with
  | none => simp
  | some q => simp

theorem processLoop_none_ok {M : Type} (particles : List (Particle M)) :
    ∀ (inds : List ℕ) (r : List (ℕ × ℤ)),
      processLoop particles none inds = Except.ok r → r = [] := by
  intro inds
  induction inds with
  | nil =>
    intro r h
    rw [processLoop] at h
    cases h
    rfl
  | cons a rest ih =>
    intro r h
    rw [processLoop] at h
    cases hlook : lookupRow particles a with
    | error e => rw [hlook] at h; cases h
    | ok p =>
      rw [hlook] at h
      exact ih r h

theorem processLoop_some_ok_mem {M : Type} (particles : List (Particle M))
    (s : SegImage) :
    ∀ (inds : List ℕ) (r : List (ℕ × ℤ)),
      processLoop particles (some s) inds = Except.ok r →
      ∀ (i : ℕ) (g : ℤ),
        ((i, g) ∈ r ↔ i ∈ inds ∧ ∃ p, particles[i]? = some p ∧
          ∃ v, segGet s ⌊p.rlnCoordinateY⌋ ⌊p.rlnCoordinateX⌋ = Except.ok (some v) ∧
            g = pyInt (v * 10000)) := by
  intro inds
  induction inds with
  | nil =>
    intro r h i g
    rw [processLoop] at h
    cases h
    simp
  | cons a rest ih =>
    intro r h i g
    rw [processLoop] at h
    cases hlook : lookupRow particles a with
    | error e => rw [hlook] at h; cases h
    | ok p =>
      rw [hlook] at h
      dsimp only at h
      have hpa : particles[a]? = some p := lookupRow_ok.mp hlook
      cases hread : segGet s ⌊p.rlnCoordinateY⌋ ⌊p.rlnCoordinateX⌋ with
      | error e =>
        rw [hread] at h
        cases h
      | ok cell =>
        rw [hread] at h
        cases cell with
        | none =>
          constructor
          · intro hm
            rcases (ih r h i g).mp hm with ⟨hmem, rest_spec⟩
            exact ⟨List.mem_cons_of_mem _ hmem, rest_spec⟩
          · rintro ⟨hmem, p', hp', v, hv, hg⟩
            rcases List.mem_cons.mp hmem with rfl | hmem'
            · rw [hpa] at hp'
              cases hp'
              rw [hv] at hread
              cases hread
            · exact (ih r h i g).mpr ⟨hmem', p', hp', v, hv, hg⟩
        | some v =>
          cases hrec : processLoop particles (some s) rest with
          | error e =>
            rw [hrec] at h
            cases h
          | ok tail =>
            rw [hrec] at h
            cases h
            constructor
            · intro hm
              rcases List.mem_cons.mp hm with heq | hmem'
              · cases heq
                exact ⟨List.mem_cons_self _ _, p, hpa, v, hread, rfl⟩
              · rcases (ih tail hrec i g).mp hmem' with ⟨hmem, rest_spec⟩
                exact ⟨List.mem_cons_of_mem _ hmem, rest_spec⟩
            · rintro ⟨hmem, p', hp', v', hv', hg⟩
              by_cases hir : i ∈ rest
              · exact List.mem_cons_of_mem _
                  ((ih tail hrec i g).mpr ⟨hir, p', hp', v', hv', hg⟩)
              · have hia : i = a := by
                  rcases List.mem_cons.mp hmem with h' | h'
                  · exact h'
                  · exact absurd h' hir
                subst hia
                rw [hpa] at hp'
                cases hp'
                rw [hv'] at hread
                cases hread
                rw [hg]
                exact List.mem_cons_self _ _

theorem processLoop_keys_sublist {M : Type} (particles : List (Particle M))
    (seg_img : Option SegImage) :
    ∀ (inds : List ℕ) (r : List (ℕ × ℤ)),
      processLoop particles seg_img inds = Except.ok r → (keysOf r).Sublist inds := by
  intro inds
  induction inds with
  | nil =>
    intro r h
    rw [processLoop] at h
    cases h
    exact List.Sublist.refl _
  | cons a rest ih =>
    intro r h
    rw [processLoop] at h
    cases hlook : lookupRow particles a with
    | error e => rw [hlook] at h; cases h
    | ok p =>
      rw [hlook] at h
      dsimp only at h
      cases seg_img with
      | none => exact (ih r h).cons a
      | some s =>
        dsimp only at h
        cases hread : segGet s ⌊p.rlnCoordinateY⌋ ⌊p.rlnCoordinateX⌋ with
        | error e =>
          rw [hread] at h
          cases h
        | ok cell =>
          rw [hread] at h
          cases cell with
          | none => exact (ih r h).cons a
          | some v =>
            cases hrec : processLoop particles (some s) rest with
            | error e =>
              rw [hrec] at h
              cases h
            | ok tail =>
              rw [hrec] at h
              cases h
              exact (ih tail hrec).cons₂ a

theorem processLoop_some_ok_reads {M : Type} (particles : List (Particle M))
    (s : SegImage) :
    ∀ (inds : List ℕ) (r : List (ℕ × ℤ)),
      processLoop particles (some s) inds = Except.ok r →
      ∀ i ∈ inds, ∃ p, particles[i]? = some p ∧
        ∃ c, segGet s ⌊p.rlnCoordinateY⌋ ⌊p.rlnCoordinateX⌋ = Except.ok c := by
  intro inds
  induction inds with
  | nil =>
    intro r _ i hi
    cases hi
  | cons a rest ih =>
    intro r h i hi
    rw [processLoop] at h
    cases hlook : lookupRow particles a with
    | error e => rw [hlook] at h; cases h
    | ok p =>
      rw [hlook] at h
      dsimp only at h
      cases hread : segGet s ⌊p.rlnCoordinateY⌋ ⌊p.rlnCoordinateX⌋ with
      | error e =>
        rw [hread] at h
        cases h
      | ok cell =>
        rw [hread] at h
        rcases List.mem_cons.mp hi with rfl | hmem
        · exact ⟨p, lookupRow_ok.mp hlook, cell, hread⟩
        · cases cell with
          | none => exact ih r h i hmem
          | some v =>
            cases hrec : processLoop particles (some s) rest with
            | error e =>
              rw [hrec] at h
              cases h
            | ok tail => exact ih tail hrec i hmem

theorem process_eq_processLoop {M Img : Type} (ext : ExtLib M Img) (args : Args)
    (particles : List (Particle M)) (mic_coord : M → List ℕ) (mic : M) :
    process_particle_icethickness ext args particles mic_coord mic =
      processLoop particles (segImageOf ext args mic) (mic_coord mic) := rfl

/-! ## Plumbing: `mapM`, `Forall₂`, folds of `apply_ice_group_to_particles` -/

theorem mapM_ok_forall₂ {α β : Type} (f : α → Except String β) :
    ∀ {l : List α} {rs : List β}, l.mapM f = Except.ok rs →
      List.Forall₂ (fun a b => f a = Except.ok b) l rs := by
  intro l
  induction l with
  | nil =>
    intro rs h
    cases h
    exact List.Forall₂.nil
  | cons a l ih =>
    intro rs h
    rw [List.mapM_cons] at h
    simp only [bind, Except.bind, pure, Except.pure] at h
    cases hfa : f a with
    | error e => rw [hfa] at h; cases h
    | ok b =>
      rw [hfa] at h
      cases hml : l.mapM f with
      | error e => rw [hml] at h; cases h
      | ok bs =>
        rw [hml] at h
        cases h
        exact List.Forall₂.cons hfa (ih hml)

theorem forall₂_append_split {α β : Type} {R : α → β → Prop} :
    ∀ {l₁ l₂ : List α} {u : List β}, List.Forall₂ R (l₁ ++ l₂) u →
      ∃ u₁ u₂, u = u₁ ++ u₂ ∧ List.Forall₂ R l₁ u₁ ∧ List.Forall₂ R l₂ u₂ := by
  intro l₁
  induction l₁ with
  | nil =>
    intro l₂ u h
    exact ⟨[], u, rfl, List.Forall₂.nil, by simpa using h⟩
  | cons a l ih =>
    intro l₂ u h
    rw [List.cons_append] at h
    cases h with
    | cons hR hf =>
      rcases ih hf with ⟨u₁, u₂, rfl, h₁, h₂⟩
      exact ⟨_ :: u₁, u₂, rfl, List.Forall₂.cons hR h₁, h₂⟩

theorem forall₂_mem_right {α β : Type} {R : α → β → Prop} :
    ∀ {l : List α} {rs : List β}, List.Forall₂ R l rs →
      ∀ y ∈ rs, ∃ a ∈ l, R a y := by
  intro l rs hf
  induction hf with
  | nil =>
    intro y hy
    cases hy
  | cons hR hf ih =>
    intro y hy
    rcases List.mem_cons.mp hy with rfl | hy'
    · exact ⟨_, List.mem_cons_self _ _, hR⟩
    · rcases ih y hy' with ⟨a, ha, hr⟩
      exact ⟨a, List.mem_cons_of_mem _ ha, hr⟩

theorem pairwise_of_forall₂ {α β : Type} {R : α → β → Prop} {S : β → β → Prop}
    {T : α → α → Prop} (hc : ∀ a b x y, R a x → R b y → T a b → S x y) :
    ∀ {l : List α} {rs : List β}, List.Forall₂ R l rs →
      l.Pairwise T → rs.Pairwise S := by
  intro l rs hf
  induction hf with
  | nil =>
    intro _
    exact List.Pairwise.nil
  | cons hR hf ih =>
    intro hp
    rcases List.pairwise_cons.mp hp with ⟨hhead, htail⟩
    refine List.Pairwise.cons ?_ (ih htail)
    intro y hy
    rcases forall₂_mem_right hf y hy with ⟨a', ha', hr'⟩
    exact hc _ a' _ y hR hr' (hhead a' ha')

theorem foldl_apply_not_key {M : Type} (i : ℕ) :
    ∀ (rs : List (List (ℕ × ℤ))) (ps : List (Particle M)),
      (∀ r ∈ rs, lastVal r i = none) →
      (rs.foldl (fun ps r => apply_ice_group_to_particles r ps) ps)[i]? = ps[i]? := by
  intro rs
  induction rs with
  | nil =>
    intro ps _
    rfl
  | cons r rest ih =>
    intro ps h
    rw [List.foldl_cons]
    rw [ih (apply_ice_group_to_particles r ps)
      (fun r' hr' => h r' (List.mem_cons_of_mem _ hr'))]
    rw [getq_apply, h r (List.mem_cons_self _ _)]

theorem length_foldl_apply {M : Type} :
    ∀ (rs : List (List (ℕ × ℤ))) (ps : List (Particle M)),
      (rs.foldl (fun ps r => apply_ice_group_to_particles r ps) ps).length = ps.length := by
  intro rs
  induction rs with
  | nil =>
    intro ps
    rfl
  | cons r rest ih =>
    intro ps
    rw [List.foldl_cons, ih, length_apply]

/-! ## Structural lemmas about `runMain` -/

theorem load_star_file_isTrue {M : Type} (doc : StarDoc M)
    (h : doc.particles.hasMicrographName = true) :
    load_star_file doc = Except.ok
      ({ doc with particles := { doc.particles with rows := loadedRows doc } },
        loadedRows doc, (loadedRows doc).map Particle.rlnMicrographName) := by
  simp [load_star_file, loadedRows, h]

theorem load_star_file_isFalse {M : Type} (doc : StarDoc M)
    (h : doc.particles.hasMicrographName = false) :
    load_star_file doc =
      Except.error { message := "No micrograph name present, exiting", code := 0 } := by
  simp [load_star_file, h]

theorem runMain_missing_column {M Img : Type} [LinearOrder M] (ext : ExtLib M Img)
    (args : Args) (doc : StarDoc M)
    (h : doc.particles.hasMicrographName = false) :
    runMain ext args doc =
      { exitCode := 0, printed := ["No micrograph name present, exiting"],
        output := none } := by
  rw [runMain, load_star_file_isFalse doc h]

theorem runMain_worker_ok {M Img : Type} [LinearOrder M] (ext : ExtLib M Img)
    (args : Args) (doc : StarDoc M) (rs : List (List (ℕ × ℤ)))
    (hcol : doc.particles.hasMicrographName = true)
    (hres : workerResults ext args doc = Except.ok rs) :
    runMain ext args doc =
      { exitCode := 0, printed := [],
        output := some
          { particles :=
              { hasMicrographName := doc.particles.hasMicrographName,
                rows := rs.foldl (fun ps r => apply_ice_group_to_particles r ps)
                  (loadedRows doc) },
            otherBlocks := doc.otherBlocks } } := by
  rw [workerResults] at hres
  rw [runMain, load_star_file_isTrue doc hcol]
  dsimp only
  rw [hres]

theorem runMain_worker_error {M Img : Type} [LinearOrder M] (ext : ExtLib M Img)
    (args : Args) (doc : StarDoc M) (e : String)
    (hcol : doc.particles.hasMicrographName = true)
    (hres : workerResults ext args doc = Except.error e) :
    runMain ext args doc = { exitCode := 1, printed := [e], output := none } := by
  rw [workerResults] at hres
  rw [runMain, load_star_file_isTrue doc hcol]
  dsimp only
  rw [hres]

theorem runMain_output_some {M Img : Type} [LinearOrder M] {ext : ExtLib M Img}
    {args : Args} {doc : StarDoc M} {out : StarDoc M}
    (hout : (runMain ext args doc).output = some out) :
    doc.particles.hasMicrographName = true ∧
      ∃ rs, workerResults ext args doc = Except.ok rs ∧
        out =
          { particles :=
              { hasMicrographName := doc.particles.hasMicrographName,
                rows := rs.foldl (fun ps r => apply_ice_group_to_particles r ps)
                  (loadedRows doc) },
            otherBlocks := doc.otherBlocks } := by
  cases hcol : doc.particles.hasMicrographName with
  | false =>
    rw [runMain_missing_column ext args doc hcol] at hout
    cases hout
  | true =>
    refine ⟨rfl, ?_⟩
    cases hres : workerResults ext args doc with
    | error e =>
      rw [runMain_worker_error ext args doc e hcol hres] at hout
      cases hout
    | ok rs =>
      rw [runMain_worker_ok ext args doc rs hcol hres] at hout
      cases hout
      exact ⟨rs, rfl, by rw [hcol]⟩

/-- Helper: an optional-index hit implies list membership. -/
theorem mem_of_getq {α : Type} {l : List α} {i : ℕ} {a : α}
    (h : l[i]? = some a) : a ∈ l := by
  rcases List.getElem?_eq_some.mp h with ⟨hlt, rfl⟩
  exact List.getElem_mem hlt

/-- The label a normally terminating run leaves on a particle row: the
scaled truncated segment value when the row's floored pixel coordinate reads
a finite cell, and the `-1` sentinel otherwise (segment image unavailable,
or cell non-finite).  In the remaining case — the read raises — the run
aborts and writes nothing. -/
def finalLabel {M Img : Type} (ext : ExtLib M Img) (args : Args)
    (p : Particle M) : ℤ :=
  match segImageOf ext args p.rlnMicrographName with
  | none => -1
  | some s =>
    match segGet s ⌊p.rlnCoordinateY⌋ ⌊p.rlnCoordinateX⌋ with
    | Except.ok (some v) => pyInt (v * 10000)
    | Except.ok none => -1
    | Except.error _ => -1

theorem runMain_row {M Img : Type} [LinearOrder M] {ext : ExtLib M Img}
    {args : Args} {doc : StarDoc M} {out : StarDoc M}
    (hout : (runMain ext args doc).output = some out)
    (i : ℕ) (p : Particle M) (hp : doc.particles.rows[i]? = some p) :
    out.particles.rows[i]? = some { p with ibIceGroup := finalLabel ext args p } := by
  rcases runMain_output_some hout with ⟨hcol, rs, hres, rfl⟩
  have hL : (loadedRows doc)[i]? = some { p with ibIceGroup := -1 } := by
    rw [loadedRows, List.getElem?_map, hp]
    rfl
  have hused :
      ((loadedRows doc).map Particle.rlnMicrographName)[i]? =
        some p.rlnMicrographName := by
    rw [List.getElem?_map, hL]
    rfl
  have hcoord : ∀ u,
      i ∈ (get_unique_micrographs
        ((loadedRows doc).map Particle.rlnMicrographName)).2 u ↔
        u = p.rlnMicrographName := by
    intro u
    rw [mem_mic_coord, hused]
    constructor
    · intro h
      cases h
      rfl
    · intro h
      rw [h]
  have hm_mem : p.rlnMicrographName ∈ (get_unique_micrographs
      ((loadedRows doc).map Particle.rlnMicrographName)).1 :=
    (mem_unique_micrographs _ _).mpr (mem_of_getq hused)
  rw [workerResults] at hres
  have hfa := mapM_ok_forall₂ _ hres
  rcases List.append_of_mem hm_mem with ⟨u₁, u₂, huniq⟩
  have hnd := unique_micrographs_nodup
    ((loadedRows doc).map Particle.rlnMicrographName)
  rw [huniq] at hfa hnd
  rcases List.nodup_append.mp hnd with ⟨-, hnd₂, hdisj⟩
  have hmnot₂ : p.rlnMicrographName ∉ u₂ := (List.nodup_cons.mp hnd₂).1
  have hmnot₁ : p.rlnMicrographName ∉ u₁ := fun hin =>
    hdisj hin (List.mem_cons_self _ _)
  rcases forall₂_append_split hfa with ⟨rs₁, rs', rfl, hf₁, hf'⟩
  cases hf' with
  | cons hRm hf₂ =>
    rename_i rstar rs₂
    have hside : ∀ (uside : List M) (rside : List (List (ℕ × ℤ))),
        List.Forall₂ (fun u r =>
          process_particle_icethickness ext args (loadedRows doc)
            (get_unique_micrographs
              ((loadedRows doc).map Particle.rlnMicrographName)).2 u =
          Except.ok r) uside rside →
        p.rlnMicrographName ∉ uside → ∀ r ∈ rside, lastVal r i = none := by
      intro uside rside hf hnot r hr
      rcases forall₂_mem_right hf r hr with ⟨u, hu, hru⟩
      rw [process_eq_processLoop] at hru
      have hsub := processLoop_keys_sublist _ _ _ _ hru
      apply lastVal_of_not_key
      intro hk
      have hic := hsub.subset hk
      have : u = p.rlnMicrographName := (hcoord u).mp hic
      rw [this] at hu
      exact hnot hu
    have hside₁ := hside u₁ rs₁ hf₁ hmnot₁
    have hside₂ := hside u₂ rs₂ hf₂ hmnot₂
    rw [List.foldl_append, List.foldl_cons]
    rw [foldl_apply_not_key i rs₂ _ hside₂]
    rw [getq_apply]
    rw [foldl_apply_not_key i rs₁ _ hside₁]
    rw [process_eq_processLoop] at hRm
    have hmem_i : i ∈ (get_unique_micrographs
        ((loadedRows doc).map Particle.rlnMicrographName)).2
        p.rlnMicrographName := (hcoord _).mpr rfl
    cases hseg : segImageOf ext args p.rlnMicrographName with
    | none =>
      rw [hseg] at hRm
      have hrstar := processLoop_none_ok _ _ _ hRm
      subst hrstar
      rw [show lastVal [] i = none from rfl]
      rw [hL]
      rw [show finalLabel ext args p = -1 from by rw [finalLabel, hseg]]
    | some s =>
      rw [hseg] at hRm
      cases hread : segGet s ⌊p.rlnCoordinateY⌋ ⌊p.rlnCoordinateX⌋ with
      | error e =>
        rcases processLoop_some_ok_reads _ _ _ _ hRm i hmem_i with ⟨p', hp', c, hc⟩
        rw [hL] at hp'
        cases hp'
        rw [show ({ p with ibIceGroup := -1 } : Particle M).rlnCoordinateY =
          p.rlnCoordinateY from rfl,
          show ({ p with ibIceGroup := -1 } : Particle M).rlnCoordinateX =
          p.rlnCoordinateX from rfl] at hc
        rw [hread] at hc
        cases hc
      | ok cell =>
        cases cell with
        | none =>
          have hnokey : lastVal rstar i = none := by
            apply lastVal_of_not_key
            intro hk
            rcases mem_keysOf.mp hk with ⟨g, hg⟩
            rcases (processLoop_some_ok_mem _ _ _ _ hRm i g).mp hg with
              ⟨-, p', hp', v, hv, -⟩
            rw [hL] at hp'
            cases hp'
            rw [show ({ p with ibIceGroup := -1 } : Particle M).rlnCoordinateY =
              p.rlnCoordinateY from rfl,
              show ({ p with ibIceGroup := -1 } : Particle M).rlnCoordinateX =
              p.rlnCoordinateX from rfl] at hv
            rw [hread] at hv
            cases hv
          rw [hnokey, hL]
          rw [show finalLabel ext args p = -1 from by
            rw [finalLabel, hseg]
            dsimp only
            rw [hread]]
        | some v =>
          have hkmem : (i, pyInt (v * 10000)) ∈ rstar := by
            apply (processLoop_some_ok_mem _ _ _ _ hRm i (pyInt (v * 10000))).mpr
            exact ⟨hmem_i, { p with ibIceGroup := -1 }, hL, v, hread, rfl⟩
          have hknd : (keysOf rstar).Nodup :=
            (processLoop_keys_sublist _ _ _ _ hRm).nodup
              (mic_coord_nodup _ _)
          rw [lastVal_of_mem hknd hkmem, hL]
          rw [show finalLabel ext args p = pyInt (v * 10000) from by
            rw [finalLabel, hseg]
            dsimp only
            rw [hread]]
          rfl

/-! ## NumPy indexing lemmas -/

theorem npIndex_oob {β : Type} (xs : List β) (i : ℤ)
    (h : (xs.length : ℤ) ≤ i ∨ i < -(xs.length : ℤ)) :
    npIndex xs i = Except.error "IndexError" := by
  simp only [npIndex]
  rcases h with h | h
  · rw [if_neg (by omega : ¬ i < 0)]
    rw [if_pos (by omega : (0 : ℤ) ≤ i)]
    rw [show xs[i.toNat]? = none from List.getElem?_eq_none (by omega)]
  · rw [if_pos (by omega : i < 0)]
    rw [if_neg (by omega : ¬ (0 : ℤ) ≤ i + (xs.length : ℤ))]

theorem npIndex_neg_wrap {β : Type} (xs : List β) (i : ℤ)
    (h₁ : -(xs.length : ℤ) ≤ i) (h₂ : i < 0) :
    ∃ a, xs[(i + (xs.length : ℤ)).toNat]? = some a ∧
      npIndex xs i = Except.ok a := by
  have hlt : (i + (xs.length : ℤ)).toNat < xs.length := by omega
  refine ⟨xs[(i + (xs.length : ℤ)).toNat], List.getElem?_eq_getElem hlt, ?_⟩
  simp only [npIndex]
  rw [if_pos h₂]
  rw [if_pos (by omega : (0 : ℤ) ≤ i + (xs.length : ℤ))]
  rw [List.getElem?_eq_getElem hlt]

theorem npIndex_in_range {β : Type} (xs : List β) (i : ℤ)
    (h₁ : 0 ≤ i) (h₂ : i < (xs.length : ℤ)) :
    ∃ a, xs[i.toNat]? = some a ∧ npIndex xs i = Except.ok a := by
  have hlt : i.toNat < xs.length := by omega
  refine ⟨xs[i.toNat], List.getElem?_eq_getElem hlt, ?_⟩
  simp only [npIndex]
  rw [if_neg (by omega : ¬ i < 0)]
  rw [if_pos h₁]
  rw [List.getElem?_eq_getElem hlt]

/-! ## Commuting disjoint result applications (scheduling independence) -/

theorem apply_comm {M : Type} (r₁ r₂ : List (ℕ × ℤ))
    (h : ∀ k, k ∈ keysOf r₁ → k ∈ keysOf r₂ → False)
    (ps : List (Particle M)) :
    apply_ice_group_to_particles r₂ (apply_ice_group_to_particles r₁ ps) =
      apply_ice_group_to_particles r₁ (apply_ice_group_to_particles r₂ ps) := by
  apply List.ext_getElem?
  intro j
  cases hl₁ : lastVal r₁ j with
  | some g₁ =>
    cases hl₂ : lastVal r₂ j with
    | some g₂ =>
      exact (h j (mem_keysOf.mpr ⟨g₁, key_of_lastVal hl₁⟩)
        (mem_keysOf.mpr ⟨g₂, key_of_lastVal hl₂⟩)).elim
    | none => simp only [getq_apply, hl₁, hl₂]
  | none =>
    cases hl₂ : lastVal r₂ j with
    | some g₂ => simp only [getq_apply, hl₁, hl₂]
    | none => simp only [getq_apply, hl₁, hl₂]

theorem workerResults_pairwise {M Img : Type} [LinearOrder M] (ext : ExtLib M Img)
    (args : Args) (doc : StarDoc M) (rs : List (List (ℕ × ℤ)))
    (hres : workerResults ext args doc = Except.ok rs) :
    rs.Pairwise (fun r₁ r₂ => ∀ k, k ∈ keysOf r₁ → k ∈ keysOf r₂ → False) := by
  rw [workerResults] at hres
  have hfa := mapM_ok_forall₂ _ hres
  have hnd := unique_micrographs_nodup
    ((loadedRows doc).map Particle.rlnMicrographName)
  refine pairwise_of_forall₂ ?_ hfa hnd
  intro u u' r r' hru hru' hne k hk hk'
  rw [process_eq_processLoop] at hru hru'
  have h1 := (mem_mic_coord _ u k).mp
    ((processLoop_keys_sublist _ _ _ _ hru).subset hk)
  have h2 := (mem_mic_coord _ u' k).mp
    ((processLoop_keys_sublist _ _ _ _ hru').subset hk')
  rw [h1] at h2
  cases h2
  exact hne rfl

theorem foldl_apply_perm {M : Type} (rs rs' : List (List (ℕ × ℤ)))
    (hperm : rs.Perm rs')
    (hdisj : rs.Pairwise (fun r₁ r₂ => ∀ k, k ∈ keysOf r₁ → k ∈ keysOf r₂ → False))
    (ps : List (Particle M)) :
    rs'.foldl (fun ps r => apply_ice_group_to_particles r ps) ps =
      rs.foldl (fun ps r => apply_ice_group_to_particles r ps) ps := by
  have hsymm : Symmetric
      (fun (r₁ r₂ : List (ℕ × ℤ)) => ∀ k, k ∈ keysOf r₁ → k ∈ keysOf r₂ → False) :=
    fun r₁ r₂ hd k hk₂ hk₁ => hd k hk₁ hk₂
  refine (hperm.foldl_eq' ?_ ps).symm
  intro x hx y hy z
  by_cases hxy : x = y
  · rw [hxy]
  · exact apply_comm x y (hdisj.forall hsymm hx hy hxy) z

theorem process_aborts_on_read_error {M Img : Type} (ext : ExtLib M Img)
    (args : Args) (particles : List (Particle M)) (mic_coord : M → List ℕ)
    (mic : M) (i : ℕ) (p : Particle M) (s : SegImage) (e : String)
    (hi : i ∈ mic_coord mic)
    (hs : segImageOf ext args mic = some s)
    (hp : particles[i]? = some p)
    (he : segGet s ⌊p.rlnCoordinateY⌋ ⌊p.rlnCoordinateX⌋ = Except.error e) :
    ∃ msg, process_particle_icethickness ext args particles mic_coord mic =
      Except.error msg := by
  cases hproc : process_particle_icethickness ext args particles mic_coord mic with
  | error msg => exact ⟨msg, rfl⟩
  | ok r =>
    rw [process_eq_processLoop, hs] at hproc
    rcases processLoop_some_ok_reads _ _ _ _ hproc i hi with ⟨p', hp', c, hc⟩
    rw [hp] at hp'
    cases hp'
    rw [he] at hc
    cases hc

/-! ## Claim theorems -/

/-- C1 (amended): for every particle whose floored (x, y) pixel coordinate
reads a finite value `v` from its micrograph's segment image, the label
written to that particle's row equals the truncation toward zero of
`v * 10000` (Python `int()`, `pyInt` here); this agrees with
`floor (v * 10000)` whenever `0 <= v`, but not for negative fractional
scaled values, so the claim's unconditional `floor` is wrong. -/
theorem C1_label_truncation {M Img : Type} [LinearOrder M] (ext : ExtLib M Img)
    (args : Args) (doc out : StarDoc M) (i : ℕ) (p : Particle M)
    (s : SegImage) (v : ℚ)
    (hout : (runMain ext args doc).output = some out)
    (hp : doc.particles.rows[i]? = some p)
    (hs : segImageOf ext args p.rlnMicrographName = some s)
    (hv : segGet s ⌊p.rlnCoordinateY⌋ ⌊p.rlnCoordinateX⌋ = Except.ok (some v)) :
    ∃ p', out.particles.rows[i]? = some p' ∧
      p'.ibIceGroup = pyInt (v * 10000) ∧
      (0 ≤ v → p'.ibIceGroup = ⌊v * 10000⌋) := by
  have hlab : finalLabel ext args p = pyInt (v * 10000) := by
    rw [finalLabel, hs]
    dsimp only
    rw [hv]
  refine ⟨_, runMain_row hout i p hp, hlab, ?_⟩
  intro hvpos
  rw [hlab, pyInt, if_pos (mul_nonneg hvpos (by norm_num))]

/-- C2: a particle whose micrograph's segment image is unavailable
(`ice_grouper` returned nothing), or whose floored pixel coordinate reads a
non-finite cell, keeps the default sentinel label `-1` in the written
output. -/
theorem C2_sentinel {M Img : Type} [LinearOrder M] (ext : ExtLib M Img)
    (args : Args) (doc out : StarDoc M) (i : ℕ) (p : Particle M)
    (hout : (runMain ext args doc).output = some out)
    (hp : doc.particles.rows[i]? = some p)
    (hseg : segImageOf ext args p.rlnMicrographName = none ∨
      ∃ s, segImageOf ext args p.rlnMicrographName = some s ∧
        segGet s ⌊p.rlnCoordinateY⌋ ⌊p.rlnCoordinateX⌋ = Except.ok none) :
    ∃ p', out.particles.rows[i]? = some p' ∧ p'.ibIceGroup = -1 := by
  refine ⟨_, runMain_row hout i p hp, ?_⟩
  show finalLabel ext args p = -1
  rcases hseg with hs | ⟨s, hs, hv⟩
  · rw [finalLabel, hs]
  · rw [finalLabel, hs]
    dsimp only
    rw [hv]

/-- C3: when the particle table lacks the `rlnMicrographName` column the
program terminates before any per-micrograph processing — its outcome does
not depend on the segmentation library or the configuration at all — and
writes no output file. -/
theorem C3_missing_column_terminates {M Img Img' : Type} [LinearOrder M]
    (ext : ExtLib M Img) (ext' : ExtLib M Img') (args args' : Args)
    (doc : StarDoc M)
    (hcol : doc.particles.hasMicrographName = false) :
    (runMain ext args doc).output = none ∧
      runMain ext args doc = runMain ext' args' doc := by
  rw [runMain_missing_column ext args doc hcol,
    runMain_missing_column ext' args' doc hcol]
  exact ⟨rfl, rfl⟩

/-- C4 (amended): when the micrograph-identifier column is missing the
program terminates immediately with a diagnostic message and exit status 0 —
Python's bare `exit()` raises `SystemExit(None)`, which is a *success*
status, not nonzero; otherwise, if no worker task raises, it exits normally
(status 0) after writing the output, while a worker exception aborts the run
with status 1 and no output. -/
theorem C4_exit_behavior {M Img : Type} [LinearOrder M] (ext : ExtLib M Img)
    (args : Args) (doc : StarDoc M) :
    (doc.particles.hasMicrographName = false →
      runMain ext args doc =
        { exitCode := 0, printed := ["No micrograph name present, exiting"],
          output := none }) ∧
    (doc.particles.hasMicrographName = true →
      (∀ rs, workerResults ext args doc = Except.ok rs →
        (runMain ext args doc).exitCode = 0 ∧
          (runMain ext args doc).output ≠ none) ∧
      (∀ e, workerResults ext args doc = Except.error e →
        runMain ext args doc =
          { exitCode := 1, printed := [e], output := none })) := by
  refine ⟨fun hcol => runMain_missing_column ext args doc hcol, fun hcol => ⟨?_, ?_⟩⟩
  · intro rs hres
    rw [runMain_worker_ok ext args doc rs hcol hres]
    exact ⟨rfl, fun h => Option.noConfusion h⟩
  · intro e hres
    exact runMain_worker_error ext args doc e hcol hres

/-- C5: a normally written output table has the same row count and row order
as the input table, every non-label field of every row is unchanged, and the
rest of the document (other blocks, column presence) is passed through. -/
theorem C5_frame {M Img : Type} [LinearOrder M] (ext : ExtLib M Img)
    (args : Args) (doc out : StarDoc M)
    (hout : (runMain ext args doc).output = some out) :
    out.particles.rows.length = doc.particles.rows.length ∧
    out.otherBlocks = doc.otherBlocks ∧
    out.particles.hasMicrographName = doc.particles.hasMicrographName ∧
    ∀ (i : ℕ) (p : Particle M), doc.particles.rows[i]? = some p →
      ∃ p', out.particles.rows[i]? = some p' ∧ eqExceptIce p' p := by
  obtain ⟨hcol, rs, hres, hshape⟩ := runMain_output_some hout
  refine ⟨?_, ?_, ?_, ?_⟩
  · rw [hshape]
    dsimp only
    rw [length_foldl_apply, loadedRows, List.length_map]
  · rw [hshape]
  · rw [hshape]
  · intro i p hp
    exact ⟨_, runMain_row hout i p hp, rfl, rfl, rfl, rfl⟩

/-- C6: the output is independent of worker scheduling: the per-micrograph
result dicts have pairwise disjoint key sets, so folding them into the table
in any permuted order produces the same written document, and the run (a
pure function of its inputs in this model) yields identical labels on every
repetition. -/
theorem C6_schedule_independent {M Img : Type} [LinearOrder M] (ext : ExtLib M Img)
    (args : Args) (doc : StarDoc M) (rs rs' : List (List (ℕ × ℤ)))
    (hcol : doc.particles.hasMicrographName = true)
    (hres : workerResults ext args doc = Except.ok rs)
    (hperm : rs.Perm rs') :
    (runMain ext args doc).output = some
      { particles :=
          { hasMicrographName := doc.particles.hasMicrographName,
            rows := rs'.foldl (fun ps r => apply_ice_group_to_particles r ps)
              (loadedRows doc) },
        otherBlocks := doc.otherBlocks } := by
  rw [runMain_worker_ok ext args doc rs hcol hres]
  rw [foldl_apply_perm rs rs' hperm (workerResults_pairwise ext args doc rs hres)]

/-- C7: the grouper returns the distinct micrograph identifiers sorted
ascending (sorted, duplicate-free, containing exactly the identifiers of the
input sequence), and maps each identifier to exactly the row indices whose
entry equals it, in strictly ascending index order. -/
theorem C7_grouper_spec {M : Type} [LinearOrder M] (l : List M) :
    List.Sorted (· ≤ ·) (get_unique_micrographs l).1 ∧
    (get_unique_micrographs l).1.Nodup ∧
    (∀ m, m ∈ (get_unique_micrographs l).1 ↔ m ∈ l) ∧
    (∀ m i, i ∈ (get_unique_micrographs l).2 m ↔ l[i]? = some m) ∧
    (∀ m, ((get_unique_micrographs l).2 m).Pairwise (· < ·)) :=
  ⟨unique_micrographs_sorted l, unique_micrographs_nodup l,
    fun m => mem_unique_micrographs l m,
    fun m i => mem_mic_coord l m i,
    fun m => mic_coord_pairwise l m⟩

/-- C8: the micrograph-to-indices map partitions the row indices: every row
index belongs to the index list of its own row's identifier — an identifier
listed among the unique micrographs — and to no other identifier's list. -/
theorem C8_partition {M : Type} [LinearOrder M] (l : List M) (i : ℕ) (m : M)
    (h : l[i]? = some m) :
    i ∈ (get_unique_micrographs l).2 m ∧
    m ∈ (get_unique_micrographs l).1 ∧
    ∀ m', i ∈ (get_unique_micrographs l).2 m' → m' = m := by
  refine ⟨(mem_mic_coord l m i).mpr h,
    (mem_unique_micrographs l m).mpr (mem_of_getq h), ?_⟩
  intro m' hm'
  have h' := (mem_mic_coord l m' i).mp hm'
  rw [h] at h'
  cases h'
  rfl

/-- C9 (amended): the segment read is unchecked NumPy indexing: an index at
or beyond the extent raises `IndexError`, as does a negative index below
minus the extent; a negative index within one extent silently reads the
wrapped-around cell from the opposite edge; and a read that raises makes the
whole per-micrograph task return an error instead of skipping the
particle. -/
theorem C9_unchecked_indexing :
    (∀ (xs : List SegCell) (i : ℤ),
      ((xs.length : ℤ) ≤ i ∨ i < -(xs.length : ℤ)) →
      npIndex xs i = Except.error "IndexError") ∧
    (∀ (xs : List SegCell) (i : ℤ), -(xs.length : ℤ) ≤ i → i < 0 →
      ∃ a, xs[(i + (xs.length : ℤ)).toNat]? = some a ∧
        npIndex xs i = Except.ok a) ∧
    (∀ (M Img : Type) (ext : ExtLib M Img) (args : Args)
      (particles : List (Particle M)) (mic_coord : M → List ℕ) (mic : M)
      (i : ℕ) (p : Particle M) (s : SegImage) (e : String),
      i ∈ mic_coord mic → segImageOf ext args mic = some s →
      particles[i]? = some p →
      segGet s ⌊p.rlnCoordinateY⌋ ⌊p.rlnCoordinateX⌋ = Except.error e →
      ∃ msg, process_particle_icethickness ext args particles mic_coord mic =
        Except.error msg) :=
  ⟨fun xs i h => npIndex_oob xs i h,
    fun xs i h₁ h₂ => npIndex_neg_wrap xs i h₁ h₂,
    fun M Img ext args particles mic_coord mic i p s e hi hs hp he =>
      process_aborts_on_read_error ext args particles mic_coord mic i p s e hi hs hp he⟩

/-- Rows equal on every field except the label have equal label-reset
images. -/
theorem map_reset_eq_of_forall₂ {M : Type} :
    ∀ {l₁ l₂ : List (Particle M)}, List.Forall₂ eqExceptIce l₁ l₂ →
      l₁.map (fun p => { p with ibIceGroup := -1 }) =
        l₂.map (fun p => { p with ibIceGroup := -1 }) := by
  intro l₁ l₂ h
  induction h with
  | nil => rfl
  | @cons p q t₁ t₂ hpq hf ih =>
    rw [List.map_cons, List.map_cons, ih]
    obtain ⟨p1, p2, p3, p4, p5⟩ := p
    obtain ⟨q1, q2, q3, q4, q5⟩ := q
    rcases hpq with ⟨e1, e2, e3, e4⟩
    dsimp only at e1 e2 e3 e4
    rw [e1, e2, e3, e4]

/-- C10: loading resets the whole `ibIceGroup` column to `-1`, so any labels
present in the input are discarded — the run's outcome is invariant under
arbitrary changes to the input label column — and a particle left unassigned
by every worker result ends with `-1`. -/
theorem C10_labels_discarded {M Img : Type} [LinearOrder M] (ext : ExtLib M Img)
    (args : Args) (doc doc' : StarDoc M) :
    (∀ (df : StarDoc M) (ps : List (Particle M)) (used : List M),
      load_star_file doc = Except.ok (df, ps, used) →
      ∀ (i : ℕ) (p : Particle M), doc.particles.rows[i]? = some p →
        ps[i]? = some { p with ibIceGroup := -1 }) ∧
    (List.Forall₂ eqExceptIce doc.particles.rows doc'.particles.rows →
      doc.particles.hasMicrographName = doc'.particles.hasMicrographName →
      doc.otherBlocks = doc'.otherBlocks →
      runMain ext args doc = runMain ext args doc') ∧
    (∀ out rs i p, (runMain ext args doc).output = some out →
      workerResults ext args doc = Except.ok rs →
      doc.particles.rows[i]? = some p →
      (∀ r ∈ rs, lastVal r i = none) →
      ∃ p', out.particles.rows[i]? = some p' ∧ p'.ibIceGroup = -1) := by
  refine ⟨?_, ?_, ?_⟩
  · intro df ps used hload i p hp
    cases hcol : doc.particles.hasMicrographName with
    | false =>
      rw [load_star_file_isFalse doc hcol] at hload
      cases hload
    | true =>
      rw [load_star_file_isTrue doc hcol, Except.ok.injEq, Prod.mk.injEq,
        Prod.mk.injEq] at hload
      obtain ⟨-, hps, -⟩ := hload
      rw [← hps, loadedRows, List.getElem?_map, hp]
      rfl
  · intro hrows hmic hob
    have hloaded : loadedRows doc = loadedRows doc' := by
      rw [loadedRows, loadedRows]
      exact map_reset_eq_of_forall₂ hrows
    have hwr : workerResults ext args doc = workerResults ext args doc' := by
      rw [workerResults, workerResults, hloaded]
    cases hb : doc.particles.hasMicrographName with
    | false =>
      rw [runMain_missing_column ext args doc hb,
        runMain_missing_column ext args doc' (by rw [← hmic]; exact hb)]
    | true =>
      have hb' : doc'.particles.hasMicrographName = true := by
        rw [← hmic]
        exact hb
      cases hres : workerResults ext args doc' with
      | error e =>
        rw [runMain_worker_error ext args doc e hb (hwr.trans hres),
          runMain_worker_error ext args doc' e hb' hres]
      | ok rs =>
        rw [runMain_worker_ok ext args doc rs hb (hwr.trans hres),
          runMain_worker_ok ext args doc' rs hb' hres, hloaded, hob, hmic]
  · intro out rs i p hout hres hp hnone
    obtain ⟨hcol, rs₀, hres₀, hshape⟩ := runMain_output_some hout
    rw [hres₀] at hres
    cases hres
    refine ⟨{ p with ibIceGroup := -1 }, ?_, rfl⟩
    rw [hshape]
    dsimp only
    rw [foldl_apply_not_key i _ _ hnone]
    rw [loadedRows, List.getElem?_map, hp]
    rfl

/-! ## Concrete fixtures for witnesses and counterexamples -/

/-- Default command-line configuration of the script. -/
def argsDefault : Args :=
  { cpus := 12, x_patches := 40, y_patches := 40, num_of_segments := 16,
    output_star := "extract_particles_icegroups.star" }

/-- An external library whose segmentation always fails to produce an image
(`ice_grouper` returns nothing). -/
def extNone : ExtLib ℕ Unit :=
  { load_img := fun _ => (), ice_grouper := fun _ _ _ _ => none }

/-- An external library that returns the fixed segment image `s` for every
micrograph. -/
def extSeg (s : SegImage) : ExtLib ℕ Unit :=
  { load_img := fun _ => (), ice_grouper := fun _ _ _ _ => some s }

/-- A particle row fixture. -/
def particleAt (m : ℕ) (x y : ℚ) (g : ℤ) : Particle ℕ :=
  { rlnMicrographName := m, rlnCoordinateX := x, rlnCoordinateY := y,
    ibIceGroup := g, otherFields := [] }

/-- A one-table document fixture. -/
def docOf (hasCol : Bool) (rows : List (Particle ℕ)) : StarDoc ℕ :=
  { particles := { hasMicrographName := hasCol, rows := rows }, otherBlocks := [] }

/-! ## Counterexamples -/

/-- C1 as stated is false: the segment value v = -1/20000 is finite and its
pixel is read, but the written label is int(v * 10000) = int(-1/2) = 0,
whereas floor(v * 10000) = -1. -/
theorem C1_counterexample :
    Option.map (fun o => o.particles.rows.map Particle.ibIceGroup)
      (runMain (extSeg [[some ((-1 : ℚ)/20000)]]) argsDefault
        (docOf true [particleAt 0 0 0 (-1)])).output = some [0] ∧
    ⌊((-1 : ℚ)/20000) * 10000⌋ = -1 ∧ (0 : ℤ) ≠ -1 := by
  refine ⟨?_, by norm_num, by decide⟩
  have hmul : ((-1 : ℚ)/20000) * 10000 = -1/2 := by norm_num
  have hpy : pyInt (-1/2 : ℚ) = 0 := by
    rw [pyInt, if_neg (by norm_num)]
    norm_num
  simp [runMain, load_star_file, get_unique_micrographs,
    process_particle_icethickness, processLoop, lookupRow, segGet, npIndex,
    apply_ice_group_to_particles, setIce, List.dedup, List.insertionSort,
    List.range, List.range.loop, List.filter, List.mapM, List.mapM.loop,
    Except.instMonad, Except.bind, Except.map, Except.pure, extSeg, argsDefault,
    docOf, particleAt, hmul, hpy]

/-- C9 as stated is false for indices below minus the extent: on a 1-by-1
segment image, the particle with floored y-coordinate -2 makes NumPy raise
IndexError (the task aborts) instead of silently reading a wrapped cell. -/
theorem C9_counterexample :
    process_particle_icethickness (extSeg [[some 1]]) argsDefault
      [particleAt 0 0 (-2) (-1)] (fun _ => [0]) 0 =
      Except.error "IndexError" := by decide

/-- C4 as stated is false: a missing micrograph-name column terminates the
run with exit status 0 (not a nonzero-equivalent status), and a run with the
column present need not exit normally after writing output — an
out-of-bounds particle coordinate aborts it with status 1 and no output. -/
theorem C4_counterexample :
    runMain extNone argsDefault (docOf false [particleAt 0 0 0 (-1)]) =
      { exitCode := 0, printed := ["No micrograph name present, exiting"],
        output := none } ∧
    runMain (extSeg [[some 1]]) argsDefault (docOf true [particleAt 0 0 99 (-1)]) =
      { exitCode := 1, printed := ["IndexError"], output := none } := by
  constructor
  · exact runMain_missing_column _ _ _ rfl
  · decide

/-! ## Witnesses -/

/-- Witness for C1 (amended) at segment value 2: the written label is
pyInt(2 * 10000) = 20000 = floor(2 * 10000). -/
theorem C1_label_truncation_witness :
    ∃ p', (docOf true [particleAt 0 0 0 20000]).particles.rows[0]? = some p' ∧
      p'.ibIceGroup = pyInt ((2 : ℚ) * 10000) ∧
      (0 ≤ (2 : ℚ) → p'.ibIceGroup = ⌊(2 : ℚ) * 10000⌋) := by
  have hmul : ((2 : ℚ)) * 10000 = 20000 := by norm_num
  have hpy : pyInt (20000 : ℚ) = 20000 := by
    rw [pyInt, if_pos (by norm_num)]
    norm_num
  refine C1_label_truncation (extSeg [[some 2]]) argsDefault
    (docOf true [particleAt 0 0 0 7]) (docOf true [particleAt 0 0 0 20000])
    0 (particleAt 0 0 0 7) [[some 2]] 2 ?_ (by decide) (by decide)
    (by decide)
  simp [runMain, load_star_file, get_unique_micrographs,
    process_particle_icethickness, processLoop, lookupRow, segGet, npIndex,
    apply_ice_group_to_particles, setIce, List.dedup, List.insertionSort,
    List.range, List.range.loop, List.filter, List.mapM, List.mapM.loop,
    Except.instMonad, Except.bind, Except.map, Except.pure, extSeg, argsDefault,
    docOf, particleAt, hmul, hpy]

/-- Witness for C2: with the segment image unavailable, the single particle
keeps the sentinel label -1 even though its input label was 7. -/
theorem C2_sentinel_witness :
    ∃ p', (docOf true [particleAt 0 0 0 (-1)]).particles.rows[0]? = some p' ∧
      p'.ibIceGroup = -1 :=
  C2_sentinel extNone argsDefault (docOf true [particleAt 0 0 0 7])
    (docOf true [particleAt 0 0 0 (-1)]) 0 (particleAt 0 0 0 7)
    (by decide) (by decide) (Or.inl (by decide))

/-- Witness for C3: a document without the micrograph-name column yields no
output, and the outcome is identical for two different external libraries
and configurations. -/
theorem C3_missing_column_terminates_witness :
    (runMain extNone argsDefault (docOf false [particleAt 0 0 0 (-1)])).output =
      none ∧
    runMain extNone argsDefault (docOf false [particleAt 0 0 0 (-1)]) =
      runMain (extSeg [[some 1]])
        { cpus := 1, x_patches := 2, y_patches := 3, num_of_segments := 4,
          output_star := "other.star" }
        (docOf false [particleAt 0 0 0 (-1)]) :=
  C3_missing_column_terminates extNone (extSeg [[some 1]]) argsDefault
    { cpus := 1, x_patches := 2, y_patches := 3, num_of_segments := 4,
      output_star := "other.star" }
    (docOf false [particleAt 0 0 0 (-1)]) (by decide)

/-- Witness for C4 (amended): the three exit behaviours at concrete inputs —
missing column exits 0 with diagnostic and no output; a successful run exits
0 with output; a worker error aborts with status 1 and no output. -/
theorem C4_exit_behavior_witness :
    runMain extNone argsDefault (docOf false [particleAt 0 0 0 (-1)]) =
      { exitCode := 0, printed := ["No micrograph name present, exiting"],
        output := none } ∧
    ((runMain extNone argsDefault (docOf true [particleAt 0 0 0 (-1)])).exitCode = 0 ∧
      (runMain extNone argsDefault (docOf true [particleAt 0 0 0 (-1)])).output ≠ none) ∧
    runMain (extSeg [[some 1]]) argsDefault (docOf true [particleAt 0 0 99 (-1)]) =
      { exitCode := 1, printed := ["IndexError"], output := none } := by
  refine ⟨(C4_exit_behavior extNone argsDefault
      (docOf false [particleAt 0 0 0 (-1)])).1 (by decide), ?_, ?_⟩
  · exact ((C4_exit_behavior extNone argsDefault
      (docOf true [particleAt 0 0 0 (-1)])).2 (by decide)).1 [[]] (by decide)
  · exact ((C4_exit_behavior (extSeg [[some 1]]) argsDefault
      (docOf true [particleAt 0 0 99 (-1)])).2 (by decide)).2 "IndexError" (by decide)

/-- Witness for C5 at a concrete run: the output table keeps the row count
and all non-label fields of the input table. -/
theorem C5_frame_witness :
    (docOf true [particleAt 3 1 2 (-1)]).particles.rows.length =
      (docOf true [particleAt 3 1 2 7]).particles.rows.length ∧
    (docOf true [particleAt 3 1 2 (-1)]).otherBlocks =
      (docOf true [particleAt 3 1 2 7]).otherBlocks ∧
    (docOf true [particleAt 3 1 2 (-1)]).particles.hasMicrographName =
      (docOf true [particleAt 3 1 2 7]).particles.hasMicrographName ∧
    ∀ (i : ℕ) (p : Particle ℕ),
      (docOf true [particleAt 3 1 2 7]).particles.rows[i]? = some p →
      ∃ p', (docOf true [particleAt 3 1 2 (-1)]).particles.rows[i]? = some p' ∧
        eqExceptIce p' p :=
  C5_frame extNone argsDefault (docOf true [particleAt 3 1 2 7])
    (docOf true [particleAt 3 1 2 (-1)]) (by decide)

/-- Witness for C6: a two-micrograph run whose two result dicts, applied in
swapped order, produce the same written document. -/
theorem C6_schedule_independent_witness :
    (runMain (extSeg [[some 2, some 4]]) argsDefault
      (docOf true [particleAt 0 0 0 (-1), particleAt 1 1 0 (-1)])).output = some
      { particles :=
          { hasMicrographName :=
              (docOf true [particleAt 0 0 0 (-1),
                particleAt 1 1 0 (-1)]).particles.hasMicrographName,
            rows := ([[(1, 40000)], [(0, 20000)]] :
                List (List (ℕ × ℤ))).foldl
              (fun ps r => apply_ice_group_to_particles r ps)
              (loadedRows (docOf true [particleAt 0 0 0 (-1),
                particleAt 1 1 0 (-1)])) },
        otherBlocks :=
          (docOf true [particleAt 0 0 0 (-1),
            particleAt 1 1 0 (-1)]).otherBlocks } := by
  have hmul1 : ((2 : ℚ)) * 10000 = 20000 := by norm_num
  have hmul2 : ((4 : ℚ)) * 10000 = 40000 := by norm_num
  have hpy1 : pyInt (20000 : ℚ) = 20000 := by
    rw [pyInt, if_pos (by norm_num)]
    norm_num
  have hpy2 : pyInt (40000 : ℚ) = 40000 := by
    rw [pyInt, if_pos (by norm_num)]
    norm_num
  have hgu1 : (get_unique_micrographs ([0, 1] : List ℕ)).1 = [0, 1] := by decide
  have hgu2a : (get_unique_micrographs ([0, 1] : List ℕ)).2 0 = [0] := by decide
  have hgu2b : (get_unique_micrographs ([0, 1] : List ℕ)).2 1 = [1] := by decide
  refine C6_schedule_independent (extSeg [[some 2, some 4]]) argsDefault
    (docOf true [particleAt 0 0 0 (-1), particleAt 1 1 0 (-1)])
    [[(0, 20000)], [(1, 40000)]] [[(1, 40000)], [(0, 20000)]]
    (by decide) ?_ (by decide)
  simp [workerResults, loadedRows, process_particle_icethickness, processLoop,
    lookupRow, segGet, npIndex, List.mapM, List.mapM.loop, Except.instMonad,
    Except.bind, Except.map, Except.pure, extSeg, argsDefault, docOf, particleAt,
    hgu1, hgu2a, hgu2b, hmul1, hmul2, hpy1, hpy2]

/-- Witness for C8 at a concrete table: row 0 of [5, 7] lies in micrograph
5's index list and in no other. -/
theorem C8_partition_witness :
    0 ∈ (get_unique_micrographs ([5, 7] : List ℕ)).2 5 ∧
    5 ∈ (get_unique_micrographs ([5, 7] : List ℕ)).1 ∧
    ∀ m', 0 ∈ (get_unique_micrographs ([5, 7] : List ℕ)).2 m' → m' = 5 :=
  C8_partition [5, 7] 0 5 (by decide)

/-- Witness for C9 (amended) at concrete indices: index 5 on a length-2 row
errors, index -1 wraps to the last cell, and a task whose particle reads out
of bounds returns an error. -/
theorem C9_unchecked_indexing_witness :
    npIndex ([some 1, some 2] : List SegCell) 5 = Except.error "IndexError" ∧
    (∃ a, ([some 1, some 2] :
        List SegCell)[((-1 : ℤ) + (([some 1, some 2] : List SegCell).length : ℤ)).toNat]? =
        some a ∧ npIndex ([some 1, some 2] : List SegCell) (-1) = Except.ok a) ∧
    ∃ msg, process_particle_icethickness (extSeg [[some 1]]) argsDefault
      [particleAt 0 0 99 (-1)] (fun _ => [0]) 0 = Except.error msg :=
  ⟨C9_unchecked_indexing.1 [some 1, some 2] 5 (Or.inl (by norm_num)),
    C9_unchecked_indexing.2.1 [some 1, some 2] (-1) (by norm_num) (by norm_num),
    C9_unchecked_indexing.2.2 ℕ Unit (extSeg [[some 1]]) argsDefault
      [particleAt 0 0 99 (-1)] (fun _ => [0]) 0 0 (particleAt 0 0 99 (-1))
      [[some 1]] "IndexError" (by decide) (by decide) (by decide) (by decide)⟩

/-- Witness for C10: loading resets the label 7 to -1; two documents that
differ only in their input labels produce identical runs; and the unassigned
particle of a run with no segment image ends with label -1. -/
theorem C10_labels_discarded_witness :
    (docOf true [particleAt 0 0 0 (-1)]).particles.rows[0]? =
      some { particleAt 0 0 0 7 with ibIceGroup := -1 } ∧
    runMain extNone argsDefault (docOf true [particleAt 0 0 0 7]) =
      runMain extNone argsDefault (docOf true [particleAt 0 0 0 3]) ∧
    ∃ p', (docOf true [particleAt 0 0 0 (-1)]).particles.rows[0]? = some p' ∧
      p'.ibIceGroup = -1 := by
  refine ⟨?_, ?_, ?_⟩
  · exact (C10_labels_discarded extNone argsDefault
      (docOf true [particleAt 0 0 0 7]) (docOf true [particleAt 0 0 0 7])).1
      (docOf true [particleAt 0 0 0 (-1)]) [particleAt 0 0 0 (-1)] [0]
      (by decide) 0 (particleAt 0 0 0 7) (by decide)
  · exact (C10_labels_discarded extNone argsDefault
      (docOf true [particleAt 0 0 0 7]) (docOf true [particleAt 0 0 0 3])).2.1
      (List.Forall₂.cons ⟨rfl, rfl, rfl, rfl⟩ List.Forall₂.nil) rfl rfl
  · exact (C10_labels_discarded extNone argsDefault
      (docOf true [particleAt 0 0 0 7]) (docOf true [particleAt 0 0 0 7])).2.2
      (docOf true [particleAt 0 0 0 (-1)]) [[]] 0 (particleAt 0 0 0 7)
      (by decide) (by decide) (by decide)
      (fun r hr => by
        rcases List.mem_singleton.mp hr with rfl
        rfl)

end Icebreaker
